import Mathlib

/-!
Verification development for the reverse-auction chaincode
(src/auction/chaincode-go/smart-contract/auction.go and auctionQueries.go).

Modelling conventions for the shallow embedding:

* The public ledger (Fabric `GetState`/`PutState`) is an association list
  from auction identifier to the `Auction` record; the JSON round-trip of
  the Go code is elided, records are stored directly.
* The per-organization private data collections (`GetPrivateData`/
  `PutPrivateData`) form a nested association list, keyed first by the
  collection name and then by the bid key.  Byte strings are `List Nat`.
* Go maps (`PrivateBids`, `RevealedBids`) are modelled as association
  lists in insertion order; Go map iteration order is unspecified, the
  model iterates in insertion order.
* Go `int` prices are modelled as `Int` (no arithmetic is performed on
  them, only comparisons, so overflow is irrelevant).
* The cryptographic primitives (the hash recomputation of the revealed
  payload, `VectorPCommit`, `RPProve`/`RPVerify`, the `%x` hex rendering
  and `json.Unmarshal`) are opaque to the auction logic: they are passed
  in as a record of computable functions, so every theorem quantifies
  over them and every witness instantiates them concretely.
* Identity context (`GetSubmittingClientIdentity`, `GetMSPID`,
  `shim.GetMSPID`, `GetTxID`, `GetTransient`) is a record of values fixed
  for one invocation, as described in section 6 of the specification.
  The accessors are modelled as total: their failure modes are platform
  faults that abort before the operation body runs.
-/

namespace ReverseAuction

/-- FullBid is the structure of a revealed bid (auction.go lines 31-37).
The Go `Type` field is called `objectType` here after its JSON tag. -/
structure FullBid where
  objectType : String
  price : Int
  org : String
  bidder : String
deriving DecidableEq, Repr

/-- BidCommitment is the structure of a private bid recorded publicly in
the auction (auction.go lines 39-43). -/
structure BidCommitment where
  org : String
  commitment : String
deriving DecidableEq, Repr

/-- Auction data (auction.go lines 17-28).  The maps are association
lists in insertion order. -/
structure Auction where
  objectType : String
  itemSold : String
  seller : String
  orgs : List String
  privateBids : List (String × BidCommitment)
  revealedBids : List (String × FullBid)
  winner : String
  price : Int
  status : String
deriving DecidableEq, Repr

/-- The combined persistent state: the shared public ledger, the
per-organization private data collections, and the endorsement-policy
state (auction identifier to endorsing organizations). -/
structure World where
  ledger : List (String × Auction)
  priv : List (String × List (String × List Nat))
  endors : List (String × List String)
deriving DecidableEq, Repr

/-- Per-invocation identity and transient context (specification
section 6: caller identity, caller organization, executing-node
organization, transaction identifier, ephemeral transient input). -/
structure Ctx where
  clientID : String
  clientMSPID : String
  peerMSPID : String
  txID : String
  transient : List (String × List Nat)
deriving DecidableEq, Repr

/-- The cryptographic and serialization primitives the chaincode calls:
`hash` is the recomputation of the commitment of the revealed payload
(auction.go lines 279-281), `pcommit` is the commitment `VectorPCommit`
derives from the bytes stored in a collection, `rpOk c` is
`RPVerify (RPProve c)` (auction.go line 304), `hexStr` is
`fmt.Sprintf("%x", _)` (auction.go lines 186 and 295), and `parseBid` is
`json.Unmarshal` into the bid structure (the `objectType` field of the
result is ignored where the Go code parses into `transientBidInput`). -/
structure Prims where
  hash : List Nat → List Nat
  pcommit : List Nat → List Nat
  rpOk : List Nat → Bool
  hexStr : List Nat → String
  parseBid : List Nat → Option FullBid

/-- Lookup in an association list, first binding wins. -/
def lookupA {α : Type} : List (String × α) → String → Option α
  | [], _ => none
  | (k, v) :: rest, key => if k = key then some v else lookupA rest key

/-- Insertion in an association list with Go map semantics: an existing
binding is overwritten in place, a new key is appended at the end. -/
def insertA {α : Type} : List (String × α) → String → α → List (String × α)
  | [], key, v => [(key, v)]
  | (k, w) :: rest, key, v =>
      if k = key then (key, v) :: rest else (k, w) :: insertA rest key v

/-- Modelled from the spec: `getCollectionName` (called throughout the
source but defined in a file missing from src/) returns the implicit
private data collection of the client organization; the naming scheme
`_implicit_org_` + org appears in auctionQueries.go line 96. -/
def getCollectionName (c : Ctx) : String :=
  "_implicit_org_" ++ c.clientMSPID

/-- Modelled from the spec: `verifyClientOrgMatchesPeerOrg` (missing
from src/) succeeds exactly when the caller organization equals the
organization of the executing peer (specification section 4.1, Commit). -/
def verifyClientOrgMatchesPeerOrg (c : Ctx) : Bool :=
  c.clientMSPID = c.peerMSPID

/-- Both `CreateCompositeKey` (auction.go line 130) and
`NewECPrimeGroupKey` (auction.go lines 172 and 237, auctionQueries.go
line 49) derive the bid key deterministically from the auction and
transaction identifiers under the `bid` object type (specification
section 6, key derivation); they are modelled as one function. -/
def compositeKey (auctionID txID : String) : String :=
  "bid" ++ "/" ++ auctionID ++ "/" ++ txID

/-- Read the private data at `bidKey` in `collection`. -/
def lookupPriv (w : World) (collection bidKey : String) : Option (List Nat) :=
  match lookupA w.priv collection with
  | none => none
  | some coll => lookupA coll bidKey

/-- Write private data (`PutPrivateData`). -/
def insertPriv (w : World) (collection bidKey : String) (data : List Nat) :
    World :=
  let coll := (lookupA w.priv collection).getD []
  { w with priv := insertA w.priv collection (insertA coll bidKey data) }

/-- `VectorPCommit collection bidKey`: the commitment computed from the
private bytes stored at `bidKey` in `collection`; `none` when the data
is absent (the Go code then errors or sees a nil commitment). -/
def vectorPCommit (p : Prims) (w : World) (collection bidKey : String) :
    Option (List Nat) :=
  (lookupPriv w collection bidKey).map p.pcommit

/-- Modelled from the spec: `setAssetStateBasedEndorsement` (missing
from src/) records the given organization as the sole endorser of the
auction key (specification section 4.4). -/
def setAssetStateBasedEndorsement (w : World) (auctionID orgID : String) :
    World :=
  { w with endors := insertA w.endors auctionID [orgID] }

/-- Modelled from the spec: `addAssetStateBasedEndorsement` (missing
from src/) adds the organization to the endorsers of the auction key
(specification section 4.4). -/
def addAssetStateBasedEndorsement (w : World) (auctionID orgID : String) :
    World :=
  let cur := (lookupA w.endors auctionID).getD []
  { w with endors := insertA w.endors auctionID (cur ++ [orgID]) }

/-- QueryAuction (auctionQueries.go lines 11-29): fetch the auction
record from the public ledger. -/
def queryAuction (w : World) (auctionID : String) : Except String Auction :=
  match lookupA w.ledger auctionID with
  | none => .error "auction does not exist"
  | some a => .ok a

/-- CreateAuction (auction.go lines 49-96): build a fresh open auction
owned by the submitting client, write it to the public ledger and
register the client organization as sole endorser.  There is no check
that the auction identifier is unused; an existing record at the same
key is overwritten. -/
def createAuction (c : Ctx) (w : World) (auctionID itemsold : String) :
    Except String Unit × World :=
  let auction : Auction :=
    { objectType := "auction"
      itemSold := itemsold
      seller := c.clientID
      orgs := [c.clientMSPID]
      privateBids := []
      revealedBids := []
      winner := ""
      price := 0
      status := "open" }
  let w1 := { w with ledger := insertA w.ledger auctionID auction }
  (.ok (), setAssetStateBasedEndorsement w1 auctionID c.clientMSPID)

/-- Bid (auction.go lines 101-142): take the raw bid from the transient
map, require the client organization to match the executing peer, and
store the bytes in the client organization collection under the key
derived from the auction and transaction identifiers.  The auction
record is never read: no status check is performed. -/
def bid (c : Ctx) (w : World) (auctionID : String) :
    Except String String × World :=
  match lookupA c.transient "bid" with
  | none => (.error "bid key not found in the transient map", w)
  | some bidJSON =>
      let collection := getCollectionName c
      if verifyClientOrgMatchesPeerOrg c then
        let bidKey := compositeKey auctionID c.txID
        (.ok c.txID, insertPriv w collection bidKey bidJSON)
      else
        (.error "Cannot store bid on this peer, not a member of this org", w)

/-- SubmitBid (auction.go lines 145-214): for an open auction, compute
the commitment of the private bid stored at the derived key, record it
in the auction under the bid key, add the client organization to the
endorsing organizations when new, and write the updated auction back. -/
def submitBid (c : Ctx) (p : Prims) (w : World) (auctionID txID : String) :
    Except String Unit × World :=
  match queryAuction w auctionID with
  | .error _ => (.error "failed to get auction from public state", w)
  | .ok auction =>
      if auction.status ≠ "open" then
        (.error "cannot join closed or ended auction", w)
      else
        let collection := getCollectionName c
        let bidKey := compositeKey auctionID txID
        match vectorPCommit p w collection bidKey with
        | none => (.error "failed to read bid bash from collection", w)
        | some bidCommitment =>
            let newCommitment : BidCommitment :=
              { org := c.clientMSPID, commitment := p.hexStr bidCommitment }
            let a1 :=
              { auction with
                  privateBids :=
                    insertA auction.privateBids bidKey newCommitment }
            if c.clientMSPID ∈ a1.orgs then
              (.ok (), { w with ledger := insertA w.ledger auctionID a1 })
            else
              let a2 := { a1 with orgs := a1.orgs ++ [c.clientMSPID] }
              let w1 := addAssetStateBasedEndorsement w auctionID c.clientMSPID
              (.ok (), { w1 with ledger := insertA w1.ledger auctionID a2 })

/-- The tail of RevealBid after the four checks (auction.go lines
311-356): parse the transient payload, require the declared bidder to be
the submitting client, and append the revealed bid to the auction. -/
def revealBidFinish (c : Ctx) (p : Prims) (w : World)
    (auctionID bidKey : String) (transientBidJSON : List Nat)
    (auction : Auction) : Except String Unit × World :=
  match p.parseBid transientBidJSON with
  | none => (.error "failed to unmarshal JSON", w)
  | some bidInput =>
      let newBid : FullBid :=
        { objectType := "bid"
          price := bidInput.price
          org := bidInput.org
          bidder := bidInput.bidder }
      if bidInput.bidder ≠ c.clientID then
        (.error "Permission denied, client id is not the owner of the bid", w)
      else
        let a1 :=
          { auction with
              revealedBids := insertA auction.revealedBids bidKey newBid }
        (.ok (), { w with ledger := insertA w.ledger auctionID a1 })

/-- RevealBid (auction.go lines 217-357): read the transient payload and
the commitment derived from the private store, fetch the auction,
require the caller to be the seller and the status to be closed, check
that the recomputed commitment of the payload equals the stored
commitment (check 2) and that its hex rendering equals the commitment
string recorded in the auction (check 3; a missing entry reads as the
empty string, the Go zero value).  Check 4 evaluates the range proof of
the commitment, but on failure the source only logs (a stray `t.Error`
call at line 306) and falls through, so both branches continue into
`revealBidFinish`. -/
def revealBid (c : Ctx) (p : Prims) (w : World) (auctionID txID : String) :
    Except String Unit × World :=
  match lookupA c.transient "bid" with
  | none => (.error "bid key not found in the transient map", w)
  | some transientBidJSON =>
      let collection := getCollectionName c
      let bidKey := compositeKey auctionID txID
      match vectorPCommit p w collection bidKey with
      | none => (.error "bid commitment does not exist", w)
      | some bidCommitment =>
          match queryAuction w auctionID with
          | .error _ => (.error "failed to get auction from public state", w)
          | .ok auction =>
              if auction.seller ≠ c.clientID then
                (.error "bids can only be revealed by seller", w)
              else if auction.status ≠ "closed" then
                (.error "cannot reveal bid for open or ended auction", w)
              else if p.hash transientBidJSON ≠ bidCommitment then
                (.error "commitment for bid JSON does not match commitment in ledger, bidder is not real", w)
              else if ((lookupA auction.privateBids bidKey).map
                  (fun b => b.commitment)).getD "" ≠ p.hexStr bidCommitment then
                (.error "commitment for bid JSON does not match commitment in auction, bidder must have changed bid", w)
              else if p.rpOk bidCommitment then
                revealBidFinish c p w auctionID bidKey transientBidJSON auction
              else
                -- Range proof failure: the source prints the failure and
                -- continues without returning (auction.go lines 304-308).
                revealBidFinish c p w auctionID bidKey transientBidJSON auction

/-- CloseAuction (auction.go lines 360-396): only the seller may close,
and only an open auction. -/
def closeAuction (c : Ctx) (w : World) (auctionID : String) :
    Except String Unit × World :=
  match queryAuction w auctionID with
  | .error _ => (.error "failed to get auction from public state", w)
  | .ok auction =>
      if auction.seller ≠ c.clientID then
        (.error "auction can only be closed by seller", w)
      else if auction.status ≠ "open" then
        (.error "cannot close auction that is not open", w)
      else
        let a1 := { auction with status := "closed" }
        (.ok (), { w with ledger := insertA w.ledger auctionID a1 })

/-- The winner loop of EndAuction (auction.go lines 432-437): fold over
the revealed bids, replacing the running winner and price whenever a bid
price strictly exceeds the running price. -/
def selectWinner (acc : String × Int) (bids : List (String × FullBid)) :
    String × Int :=
  bids.foldl
    (fun acc e => if e.2.price > acc.2 then (e.2.bidder, e.2.price) else acc)
    acc

/-- The loop body of checkForHigherBid (auctionQueries.go lines 88-129)
over the remaining private bid entries.  The flag records whether some
unrevealed bid of the peer organization had a plaintext price above the
auction price (the Go code keeps looping after setting its error
variable, and a later fetch failure returns immediately, discarding the
flag). -/
def checkForHigherBidAux (c : Ctx) (p : Prims) (w : World)
    (auctionPrice : Int) (revealedBidders : List (String × FullBid)) :
    List (String × BidCommitment) → Bool → Except String Bool
  | [], flag => .ok flag
  | (bidKey, privateBid) :: rest, flag =>
      match lookupA revealedBidders bidKey with
      | some _ =>
        -- bid is already revealed, no action to take
        checkForHigherBidAux c p w auctionPrice revealedBidders rest flag
      | none =>
        let collection := "_implicit_org_" ++ privateBid.org
        if privateBid.org = c.peerMSPID then
          match lookupPriv w collection bidKey with
          | none => .error "bid does not exist"
          | some bidJSON =>
              match p.parseBid bidJSON with
              | none => .error "failed to unmarshal JSON"
              | some b =>
                  checkForHigherBidAux c p w auctionPrice revealedBidders rest
                    (flag || decide (b.price > auctionPrice))
        else
          match vectorPCommit p w collection bidKey with
          | none => .error "bid Commitment does not exist"
          | some _ =>
              -- Remote organization: only the commitment is fetched and
              -- required to exist; nothing else is checked.
              checkForHigherBidAux c p w auctionPrice revealedBidders rest flag

/-- checkForHigherBid (auctionQueries.go lines 77-132): scan the private
bids not yet revealed; an unrevealed bid of the peer organization with a
plaintext price above the auction price makes the whole check fail, a
missing private bid or remote commitment fails immediately. -/
def checkForHigherBid (c : Ctx) (p : Prims) (w : World)
    (auctionPrice : Int) (revealedBidders : List (String × FullBid))
    (bidders : List (String × BidCommitment)) : Except String Unit :=
  match checkForHigherBidAux c p w auctionPrice revealedBidders bidders false with
  | .error e => .error e
  | .ok true => .error "Cannot close auction, bidder has a higher price"
  | .ok false => .ok ()

/-- EndAuction (auction.go lines 399-453): only the seller may end a
closed auction with at least one revealed bid; the winner loop raises
the stored winner and price to the best revealed bid, the hidden-bid
check must pass, and the auction is written back with status ended. -/
def endAuction (c : Ctx) (p : Prims) (w : World) (auctionID : String) :
    Except String Unit × World :=
  match queryAuction w auctionID with
  | .error _ => (.error "failed to get auction from public state", w)
  | .ok auction =>
      if auction.seller ≠ c.clientID then
        (.error "auction can only be ended by seller", w)
      else if auction.status ≠ "closed" then
        (.error "Can only end a closed auction", w)
      else if auction.revealedBids.isEmpty then
        (.error "No bids have been revealed, cannot end auction", w)
      else
        let wp := selectWinner (auction.winner, auction.price)
          auction.revealedBids
        match checkForHigherBid c p w wp.2 auction.revealedBids
            auction.privateBids with
        | .error e => (.error ("Cannot end auction: " ++ e), w)
        | .ok () =>
            let a1 :=
              { auction with
                  winner := wp.1, price := wp.2, status := "ended" }
            (.ok (), { w with ledger := insertA w.ledger auctionID a1 })

/-- QueryBid (auctionQueries.go lines 32-74): the caller organization
must match the peer, the private bid must exist and parse, and only the
declared bidder of the bid may read it. -/
def queryBid (c : Ctx) (p : Prims) (w : World) (auctionID txID : String) :
    Except String FullBid :=
  if verifyClientOrgMatchesPeerOrg c then
    let collection := getCollectionName c
    let bidKey := compositeKey auctionID txID
    match lookupPriv w collection bidKey with
    | none => .error "bid does not exist"
    | some bidJSON =>
        match p.parseBid bidJSON with
        | none => .error "failed to unmarshal JSON"
        | some b =>
            if b.bidder ≠ c.clientID then
              .error "Permission denied, client id is not the owner of the bid"
            else
              .ok b
  else
    .error "failed to get implicit collection name"

/-- One lifecycle operation with its arguments. -/
inductive Op where
  | create (auctionID itemsold : String)
  | bidOp (auctionID : String)
  | submit (auctionID txID : String)
  | reveal (auctionID txID : String)
  | close (auctionID : String)
  | endA (auctionID : String)
deriving DecidableEq, Repr

/-- Run one lifecycle operation (the `Bid` transaction identifier result
is collapsed to a unit). -/
def runOp (c : Ctx) (p : Prims) (w : World) : Op → Except String Unit × World
  | .create auctionID itemsold =>
      createAuction c w auctionID itemsold
  | .bidOp auctionID =>
      match bid c w auctionID with
      | (.error e, w1) => (.error e, w1)
      | (.ok _, w1) => (.ok (), w1)
  | .submit auctionID txID => submitBid c p w auctionID txID
  | .reveal auctionID txID => revealBid c p w auctionID txID
  | .close auctionID => closeAuction c w auctionID
  | .endA auctionID => endAuction c p w auctionID

/-- The empty initial state: no auctions, no private data, no
endorsement entries. -/
def initWorld : World := { ledger := [], priv := [], endors := [] }

/-- Reachable worlds: the initial world and everything obtained from a
reachable world by running one lifecycle operation under any identity
context and any primitives (the resulting world is kept whether the
operation succeeds or fails). -/
inductive Reached : World → Prop
  | init : Reached initWorld
  | step (c : Ctx) (p : Prims) (o : Op) (w : World) :
      Reached w → Reached (runOp c p w o).2

/-! Specification-side definitions, written from the wording of the
specification rather than from the source, for comparison with the
embedded code. -/

/-- Specification-side maximum of the prices of a list of revealed bids,
starting from `p0` (the stored auction price). -/
def listMaxPrice (p0 : Int) (bids : List (String × FullBid)) : Int :=
  bids.foldl (fun m e => max m e.2.price) p0

/-- Whether the result of an operation is a success. -/
def isOkE {α : Type} : Except String α → Bool
  | .ok _ => true
  | .error _ => false

/-! Association list laws. -/

theorem lookupA_insertA {α : Type} (l : List (String × α)) (key k : String)
    (v : α) :
    lookupA (insertA l key v) k = if k = key then some v else lookupA l k := by
  induction l with
  | nil =>
      by_cases h : k = key
      · subst h
        simp [insertA, lookupA]
      · have h1 : ¬ key = k := fun hh => h hh.symm
        simp [insertA, lookupA, h, h1]
  | cons hd tl ih =>
      by_cases hhd : hd.1 = key
      · by_cases h : k = key
        · subst h
          simp [insertA, lookupA, hhd]
        · have h1 : ¬ key = k := fun hh => h hh.symm
          have h2 : ¬ hd.1 = k := by rw [hhd]; exact h1
          simp [insertA, lookupA, hhd, h, h1, h2]
      · by_cases h : k = key
        · subst h
          simp [insertA, lookupA, hhd, ih]
        · simp [insertA, lookupA, hhd, ih, h]

theorem mem_insertA {α : Type} (l : List (String × α)) (key : String) (v : α)
    (e : String × α) (he : e ∈ insertA l key v) : e ∈ l ∨ e = (key, v) := by
  induction l with
  | nil =>
      simp [insertA] at he
      exact Or.inr he
  | cons hd tl ih =>
      simp only [insertA] at he
      by_cases hhd : hd.1 = key
      · rw [if_pos hhd] at he
        rcases List.mem_cons.mp he with h | h
        · exact Or.inr h
        · exact Or.inl (List.mem_cons_of_mem _ h)
      · rw [if_neg hhd] at he
        rcases List.mem_cons.mp he with h | h
        · exact Or.inl (h ▸ List.mem_cons_self _ _)
        · rcases ih h with h2 | h2
          · exact Or.inl (List.mem_cons_of_mem _ h2)
          · exact Or.inr h2

theorem queryAuction_ok_iff (w : World) (auctionID : String) (a : Auction) :
    queryAuction w auctionID = .ok a ↔ lookupA w.ledger auctionID = some a := by
  unfold queryAuction
  cases lookupA w.ledger auctionID <;> simp

/-! Winner-loop characterization. -/

theorem selectWinner_cons (acc : String × Int) (x : String × FullBid)
    (rest : List (String × FullBid)) :
    selectWinner acc (x :: rest) =
      selectWinner
        (if x.2.price > acc.2 then (x.2.bidder, x.2.price) else acc) rest := rfl

theorem listMaxPrice_cons (p0 : Int) (x : String × FullBid)
    (rest : List (String × FullBid)) :
    listMaxPrice p0 (x :: rest) = listMaxPrice (max p0 x.2.price) rest := rfl

theorem selectWinner_snd :
    ∀ (bids : List (String × FullBid)) (w0 : String) (p0 : Int),
      (selectWinner (w0, p0) bids).2 = listMaxPrice p0 bids
  | [], _, _ => rfl
  | x :: rest, w0, p0 => by
      rw [selectWinner_cons, listMaxPrice_cons]
      by_cases h : x.2.price > p0
      · rw [if_pos h, max_eq_right (le_of_lt h)]
        exact selectWinner_snd rest x.2.bidder x.2.price
      · rw [if_neg h, max_eq_left (le_of_not_lt h)]
        exact selectWinner_snd rest w0 p0

theorem selectWinner_stay :
    ∀ (bids : List (String × FullBid)) (w0 : String) (p0 : Int),
      (∀ e ∈ bids, e.2.price ≤ p0) → selectWinner (w0, p0) bids = (w0, p0)
  | [], _, _, _ => rfl
  | x :: rest, w0, p0, h => by
      rw [selectWinner_cons,
        if_neg (not_lt.mpr (h x (List.mem_cons_self _ _)))]
      exact selectWinner_stay rest w0 p0
        (fun e he => h e (List.mem_cons_of_mem _ he))

theorem le_listMaxPrice :
    ∀ (bids : List (String × FullBid)) (p0 : Int), p0 ≤ listMaxPrice p0 bids
  | [], _ => le_refl _
  | x :: rest, p0 => by
      rw [listMaxPrice_cons]
      exact le_trans (le_max_left _ _) (le_listMaxPrice rest _)

theorem listMaxPrice_mono :
    ∀ (bids : List (String × FullBid)) (p0 p1 : Int), p0 ≤ p1 →
      listMaxPrice p0 bids ≤ listMaxPrice p1 bids
  | [], _, _, h => h
  | x :: rest, p0, p1, h => by
      rw [listMaxPrice_cons, listMaxPrice_cons]
      exact listMaxPrice_mono rest _ _ (max_le_max h (le_refl _))

theorem price_le_listMaxPrice :
    ∀ (bids : List (String × FullBid)) (p0 : Int) (e : String × FullBid),
      e ∈ bids → e.2.price ≤ listMaxPrice p0 bids
  | x :: rest, p0, e, he => by
      rw [listMaxPrice_cons]
      rcases List.mem_cons.mp he with h | h
      · subst h
        exact le_trans (le_max_right _ _) (le_listMaxPrice rest _)
      · exact price_le_listMaxPrice rest _ e h

theorem find?_cons_true {α : Type} (p : α → Bool) (a : α) (l : List α)
    (h : p a = true) : (a :: l).find? p = some a := by
  simp [List.find?, h]

theorem find?_cons_false {α : Type} (p : α → Bool) (a : α) (l : List α)
    (h : p a = false) : (a :: l).find? p = l.find? p := by
  simp [List.find?, h]

/-- The winner loop, started strictly below the maximum price of the
revealed bids, ends at the first bid attaining the maximum: first-seen
wins ties. -/
theorem selectWinner_find :
    ∀ (bids : List (String × FullBid)) (w0 : String) (p0 : Int)
      (e : String × FullBid),
      p0 < listMaxPrice p0 bids →
      bids.find? (fun x => x.2.price == listMaxPrice p0 bids) = some e →
      selectWinner (w0, p0) bids = (e.2.bidder, e.2.price) ∧
        e.2.price = listMaxPrice p0 bids
  | [], _, p0, _, hlt, _ => absurd hlt (lt_irrefl p0)
  | x :: rest, w0, p0, e, hlt, hfind => by
      rw [selectWinner_cons]
      by_cases hx : x.2.price > p0
      · rw [if_pos hx]
        have hM : listMaxPrice p0 (x :: rest) =
            listMaxPrice x.2.price rest := by
          rw [listMaxPrice_cons, max_eq_right (le_of_lt hx)]
        by_cases hxM : x.2.price = listMaxPrice p0 (x :: rest)
        · have hfx : (fun y : String × FullBid =>
              y.2.price == listMaxPrice p0 (x :: rest)) x = true := by
            simp [hxM]
          rw [find?_cons_true
            (fun y : String × FullBid =>
              y.2.price == listMaxPrice p0 (x :: rest)) x rest hfx] at hfind
          cases hfind
          have hstay : selectWinner (x.2.bidder, x.2.price) rest =
              (x.2.bidder, x.2.price) := by
            apply selectWinner_stay
            intro y hy
            calc y.2.price ≤ listMaxPrice x.2.price rest :=
                  price_le_listMaxPrice rest _ y hy
              _ = x.2.price := by rw [← hM, ← hxM]
          exact ⟨hstay, hxM⟩
        · have hfx : (fun y : String × FullBid =>
              y.2.price == listMaxPrice p0 (x :: rest)) x = false := by
            simp [hxM]
          rw [find?_cons_false
            (fun y : String × FullBid =>
              y.2.price == listMaxPrice p0 (x :: rest)) x rest hfx] at hfind
          have hxle : x.2.price ≤ listMaxPrice p0 (x :: rest) :=
            price_le_listMaxPrice _ _ x (List.mem_cons_self _ _)
          have hxlt : x.2.price < listMaxPrice p0 (x :: rest) :=
            lt_of_le_of_ne hxle hxM
          have := selectWinner_find rest x.2.bidder x.2.price e
            (by rw [← hM]; exact hxlt) (by rw [← hM]; exact hfind)
          exact ⟨this.1, by rw [hM]; exact this.2⟩
      · rw [if_neg hx]
        have hM : listMaxPrice p0 (x :: rest) = listMaxPrice p0 rest := by
          rw [listMaxPrice_cons, max_eq_left (le_of_not_lt hx)]
        have hxne : x.2.price ≠ listMaxPrice p0 (x :: rest) := by
          intro hcontra
          have : listMaxPrice p0 (x :: rest) ≤ p0 :=
            hcontra ▸ le_of_not_lt hx
          exact absurd (lt_of_lt_of_le hlt this) (lt_irrefl p0)
        have hfx : (fun y : String × FullBid =>
            y.2.price == listMaxPrice p0 (x :: rest)) x = false := by
          simp [hxne]
        rw [find?_cons_false
          (fun y : String × FullBid =>
            y.2.price == listMaxPrice p0 (x :: rest)) x rest hfx] at hfind
        have := selectWinner_find rest w0 p0 e
          (by rw [← hM]; exact hlt) (by rw [← hM]; exact hfind)
        exact ⟨this.1, by rw [hM]; exact this.2⟩

/-! Frame lemmas: an operation that returns an error leaves the whole
state exactly as it was. -/

theorem createAuction_fst (c : Ctx) (w : World) (auctionID itemsold : String) :
    (createAuction c w auctionID itemsold).1 = .ok () := rfl

theorem bid_frame (c : Ctx) (w : World) (auctionID : String) (e : String) :
    (bid c w auctionID).1 = .error e → (bid c w auctionID).2 = w := by
  unfold bid
  split
  · intro _; rfl
  · split
    · intro h; exact Except.noConfusion h
    · intro _; rfl

theorem submitBid_frame (c : Ctx) (p : Prims) (w : World)
    (auctionID txID : String) (e : String) :
    (submitBid c p w auctionID txID).1 = .error e →
    (submitBid c p w auctionID txID).2 = w := by
  unfold submitBid
  repeat' (first | split | (dsimp only; split))
  all_goals intro h
  all_goals first | rfl | exact Except.noConfusion h

theorem revealBidFinish_frame (c : Ctx) (p : Prims) (w : World)
    (auctionID bidKey : String) (transientBidJSON : List Nat)
    (auction : Auction) (e : String) :
    (revealBidFinish c p w auctionID bidKey transientBidJSON auction).1 =
      .error e →
    (revealBidFinish c p w auctionID bidKey transientBidJSON auction).2 = w := by
  unfold revealBidFinish
  split
  · intro _; rfl
  · split
    · intro _; rfl
    · intro h; exact Except.noConfusion h

theorem revealBid_frame (c : Ctx) (p : Prims) (w : World)
    (auctionID txID : String) (e : String) :
    (revealBid c p w auctionID txID).1 = .error e →
    (revealBid c p w auctionID txID).2 = w := by
  unfold revealBid
  repeat' (first | split | (dsimp only; split))
  all_goals intro h
  all_goals
    first
    | rfl
    | exact Except.noConfusion h
    | exact revealBidFinish_frame _ _ _ _ _ _ _ _ h

theorem closeAuction_frame (c : Ctx) (w : World) (auctionID : String)
    (e : String) :
    (closeAuction c w auctionID).1 = .error e →
    (closeAuction c w auctionID).2 = w := by
  unfold closeAuction
  split
  · intro _; rfl
  · split
    · intro _; rfl
    · split
      · intro _; rfl
      · intro h; exact Except.noConfusion h

theorem endAuction_frame (c : Ctx) (p : Prims) (w : World)
    (auctionID : String) (e : String) :
    (endAuction c p w auctionID).1 = .error e →
    (endAuction c p w auctionID).2 = w := by
  unfold endAuction
  repeat' (first | split | (dsimp only; split))
  all_goals intro h
  all_goals first | rfl | exact Except.noConfusion h

theorem runOp_frame (c : Ctx) (p : Prims) (w : World) (o : Op) (e : String) :
    (runOp c p w o).1 = .error e → (runOp c p w o).2 = w := by
  cases o with
  | create auctionID itemsold =>
      intro h
      rw [show (runOp c p w (.create auctionID itemsold)).1 =
        (createAuction c w auctionID itemsold).1 from rfl,
        createAuction_fst] at h
      exact Except.noConfusion h
  | bidOp auctionID =>
      simp only [runOp]
      cases hb : bid c w auctionID with
      | mk r w1 =>
          cases r with
          | error msg =>
              intro _
              have hbf := bid_frame c w auctionID msg
              rw [hb] at hbf
              exact hbf rfl
          | ok v => intro h; exact Except.noConfusion h
  | submit auctionID txID => exact submitBid_frame c p w auctionID txID e
  | reveal auctionID txID => exact revealBid_frame c p w auctionID txID e
  | close auctionID => exact closeAuction_frame c w auctionID e
  | endA auctionID => exact endAuction_frame c p w auctionID e

/-! Ledger-shape lemmas: what each operation can do to the public
ledger. -/

theorem createAuction_ledger (c : Ctx) (w : World) (auctionID itemsold : String) :
    (createAuction c w auctionID itemsold).2.ledger =
      insertA w.ledger auctionID
        { objectType := "auction", itemSold := itemsold, seller := c.clientID,
          orgs := [c.clientMSPID], privateBids := [], revealedBids := [],
          winner := "", price := 0, status := "open" } := rfl

theorem bid_ledger (c : Ctx) (w : World) (auctionID : String) :
    (bid c w auctionID).2.ledger = w.ledger := by
  unfold bid
  split
  · rfl
  · dsimp only
    split <;> rfl

theorem submitBid_ledger (c : Ctx) (p : Prims) (w : World)
    (auctionID txID : String) :
    (submitBid c p w auctionID txID).2.ledger = w.ledger ∨
    ∃ a a1, lookupA w.ledger auctionID = some a ∧ a.status = "open" ∧
      a1.seller = a.seller ∧ a1.status = a.status ∧
      a1.revealedBids = a.revealedBids ∧
      (submitBid c p w auctionID txID).2.ledger =
        insertA w.ledger auctionID a1 := by
  unfold submitBid
  split
  · exact Or.inl rfl
  · rename_i a heq
    split
    · exact Or.inl rfl
    · rename_i hst
      dsimp only
      split
      · exact Or.inl rfl
      · rename_i comm heqc
        split
        · refine Or.inr ⟨a,
            { a with privateBids := insertA a.privateBids (compositeKey auctionID txID) { org := c.clientMSPID, commitment := p.hexStr comm } },
            (queryAuction_ok_iff _ _ _).mp heq, not_not.mp hst,
            rfl, rfl, rfl, rfl⟩
        · refine Or.inr ⟨a,
            { a with privateBids := insertA a.privateBids (compositeKey auctionID txID) { org := c.clientMSPID, commitment := p.hexStr comm }, orgs := a.orgs ++ [c.clientMSPID] },
            (queryAuction_ok_iff _ _ _).mp heq, not_not.mp hst,
            rfl, rfl, rfl, rfl⟩

theorem revealBidFinish_ledger (c : Ctx) (p : Prims) (w : World)
    (auctionID bidKey : String) (transientBidJSON : List Nat)
    (auction : Auction) :
    (revealBidFinish c p w auctionID bidKey transientBidJSON auction).2.ledger =
      w.ledger ∨
    ∃ b : FullBid, b.bidder = c.clientID ∧
      (revealBidFinish c p w auctionID bidKey transientBidJSON
          auction).2.ledger =
        insertA w.ledger auctionID
          { auction with
              revealedBids := insertA auction.revealedBids bidKey b } := by
  unfold revealBidFinish
  split
  · exact Or.inl rfl
  · rename_i bi heq
    split
    · exact Or.inl rfl
    · rename_i hb
      exact Or.inr ⟨{ objectType := "bid", price := bi.price, org := bi.org, bidder := bi.bidder }, not_not.mp hb, rfl⟩

theorem revealBid_ledger (c : Ctx) (p : Prims) (w : World)
    (auctionID txID : String) :
    (revealBid c p w auctionID txID).2.ledger = w.ledger ∨
    ∃ a bidKey b, lookupA w.ledger auctionID = some a ∧
      a.seller = c.clientID ∧ a.status = "closed" ∧
      b.bidder = c.clientID ∧
      (revealBid c p w auctionID txID).2.ledger =
        insertA w.ledger auctionID
          { a with revealedBids := insertA a.revealedBids bidKey b } := by
  unfold revealBid
  split
  · exact Or.inl rfl
  · rename_i json heqt
    dsimp only
    split
    · exact Or.inl rfl
    · rename_i comm heqc
      split
      · exact Or.inl rfl
      · rename_i a heq
        split
        · exact Or.inl rfl
        · rename_i h1
          split
          · exact Or.inl rfl
          · rename_i h2
            split
            · exact Or.inl rfl
            · rename_i h3
              split
              · exact Or.inl rfl
              · rename_i h4
                split <;>
                  · rcases revealBidFinish_ledger c p w auctionID
                      (compositeKey auctionID txID) json a with hL | ⟨b, hb, hL⟩
                    · exact Or.inl hL
                    · exact Or.inr ⟨a, compositeKey auctionID txID, b,
                        (queryAuction_ok_iff _ _ _).mp heq, not_not.mp h1,
                        not_not.mp h2, hb, hL⟩

theorem closeAuction_ledger (c : Ctx) (w : World) (auctionID : String) :
    (closeAuction c w auctionID).2.ledger = w.ledger ∨
    ∃ a, lookupA w.ledger auctionID = some a ∧ a.seller = c.clientID ∧
      a.status = "open" ∧
      (closeAuction c w auctionID).2.ledger =
        insertA w.ledger auctionID { a with status := "closed" } := by
  unfold closeAuction
  split
  · exact Or.inl rfl
  · rename_i a heq
    split
    · exact Or.inl rfl
    · rename_i h1
      split
      · exact Or.inl rfl
      · rename_i h2
        exact Or.inr ⟨a, (queryAuction_ok_iff _ _ _).mp heq, not_not.mp h1,
          not_not.mp h2, rfl⟩

theorem endAuction_ledger (c : Ctx) (p : Prims) (w : World)
    (auctionID : String) :
    (endAuction c p w auctionID).2.ledger = w.ledger ∨
    ∃ a wp1 wp2, lookupA w.ledger auctionID = some a ∧
      a.seller = c.clientID ∧ a.status = "closed" ∧
      (endAuction c p w auctionID).2.ledger =
        insertA w.ledger auctionID
          { a with winner := wp1, price := wp2, status := "ended" } := by
  unfold endAuction
  split
  · exact Or.inl rfl
  · rename_i a heq
    split
    · exact Or.inl rfl
    · rename_i h1
      split
      · exact Or.inl rfl
      · rename_i h2
        split
        · exact Or.inl rfl
        · rename_i h3
          dsimp only
          split
          · exact Or.inl rfl
          · exact Or.inr ⟨a, _, _, (queryAuction_ok_iff _ _ _).mp heq,
              not_not.mp h1, not_not.mp h2, rfl⟩

theorem runOp_bid_snd (c : Ctx) (p : Prims) (w : World) (auctionID : String) :
    (runOp c p w (.bidOp auctionID)).2 = (bid c w auctionID).2 := by
  simp only [runOp]
  cases hb : bid c w auctionID with
  | mk r w1 => cases r <;> rfl

/-! The revealed-bidder invariant. -/

/-- Invariant over a public ledger: in every stored auction, every
revealed bid names the auction seller as its bidder. -/
def InvL (l : List (String × Auction)) : Prop :=
  ∀ auctionID a, lookupA l auctionID = some a →
    ∀ e ∈ a.revealedBids, e.2.bidder = a.seller

theorem invL_insert (l : List (String × Auction)) (key : String) (a1 : Auction)
    (hw : InvL l) (ha : ∀ e ∈ a1.revealedBids, e.2.bidder = a1.seller) :
    InvL (insertA l key a1) := by
  intro id a hla e he
  rw [lookupA_insertA] at hla
  by_cases h : id = key
  · rw [if_pos h] at hla
    cases hla
    exact ha e he
  · rw [if_neg h] at hla
    exact hw id a hla e he

theorem invL_runOp (c : Ctx) (p : Prims) (w : World) (o : Op)
    (hw : InvL w.ledger) : InvL (runOp c p w o).2.ledger := by
  cases o with
  | create auctionID itemsold =>
      rw [show (runOp c p w (.create auctionID itemsold)).2.ledger =
        (createAuction c w auctionID itemsold).2.ledger from rfl,
        createAuction_ledger]
      refine invL_insert _ _ _ hw ?_
      intro e he
      cases he
  | bidOp auctionID =>
      rw [runOp_bid_snd, bid_ledger]
      exact hw
  | submit auctionID txID =>
      rw [show (runOp c p w (.submit auctionID txID)).2.ledger =
        (submitBid c p w auctionID txID).2.ledger from rfl]
      rcases submitBid_ledger c p w auctionID txID with hL |
        ⟨a, a1, hla, _, hsel, _, hrev, hL⟩
      · rw [hL]; exact hw
      · rw [hL]
        refine invL_insert _ _ _ hw ?_
        intro e he
        rw [hrev] at he
        rw [hsel]
        exact hw auctionID a hla e he
  | reveal auctionID txID =>
      rw [show (runOp c p w (.reveal auctionID txID)).2.ledger =
        (revealBid c p w auctionID txID).2.ledger from rfl]
      rcases revealBid_ledger c p w auctionID txID with hL |
        ⟨a, bidKey, b, hla, hsel, _, hbid, hL⟩
      · rw [hL]; exact hw
      · rw [hL]
        refine invL_insert _ _ _ hw ?_
        intro e he
        rcases mem_insertA _ _ _ _ he with hmem | hmem
        · exact hw auctionID a hla e hmem
        · rw [hmem]
          rw [show ({ a with revealedBids := (insertA a.revealedBids bidKey b) } : Auction).seller = a.seller from rfl, hsel]
          exact hbid
  | close auctionID =>
      rw [show (runOp c p w (.close auctionID)).2.ledger =
        (closeAuction c w auctionID).2.ledger from rfl]
      rcases closeAuction_ledger c w auctionID with hL | ⟨a, hla, _, _, hL⟩
      · rw [hL]; exact hw
      · rw [hL]
        refine invL_insert _ _ _ hw ?_
        intro e he
        exact hw auctionID a hla e he
  | endA auctionID =>
      rw [show (runOp c p w (.endA auctionID)).2.ledger =
        (endAuction c p w auctionID).2.ledger from rfl]
      rcases endAuction_ledger c p w auctionID with hL |
        ⟨a, wp1, wp2, hla, _, _, hL⟩
      · rw [hL]; exact hw
      · rw [hL]
        refine invL_insert _ _ _ hw ?_
        intro e he
        exact hw auctionID a hla e he

theorem reached_invL (w : World) (hw : Reached w) : InvL w.ledger := by
  induction hw with
  | init => intro id a hla; exact Option.noConfusion hla
  | step c p o w hw ih => exact invL_runOp c p w o ih

/-! Status monotonicity of the non-creating operations. -/

theorem runOp_status_monotone (c : Ctx) (p : Prims) (w : World) (o : Op)
    (hnc : ∀ id item, o ≠ Op.create id item) (aid : String) (a2 : Auction)
    (h2 : lookupA (runOp c p w o).2.ledger aid = some a2) :
    ∃ a1, lookupA w.ledger aid = some a1 ∧
      (a2.status = a1.status ∨ (a1.status = "open" ∧ a2.status = "closed") ∨
       (a1.status = "closed" ∧ a2.status = "ended")) := by
  cases o with
  | create auctionID itemsold => exact absurd rfl (hnc auctionID itemsold)
  | bidOp auctionID =>
      rw [runOp_bid_snd, bid_ledger] at h2
      exact ⟨a2, h2, Or.inl rfl⟩
  | submit auctionID txID =>
      rw [show (runOp c p w (.submit auctionID txID)).2.ledger =
        (submitBid c p w auctionID txID).2.ledger from rfl] at h2
      rcases submitBid_ledger c p w auctionID txID with hL |
        ⟨a, a1, hla, _, _, hstat, _, hL⟩
      · rw [hL] at h2; exact ⟨a2, h2, Or.inl rfl⟩
      · rw [hL, lookupA_insertA] at h2
        by_cases haid : aid = auctionID
        · rw [if_pos haid] at h2
          cases h2
          exact ⟨a, haid ▸ hla, Or.inl hstat⟩
        · rw [if_neg haid] at h2
          exact ⟨a2, h2, Or.inl rfl⟩
  | reveal auctionID txID =>
      rw [show (runOp c p w (.reveal auctionID txID)).2.ledger =
        (revealBid c p w auctionID txID).2.ledger from rfl] at h2
      rcases revealBid_ledger c p w auctionID txID with hL |
        ⟨a, bidKey, b, hla, _, _, _, hL⟩
      · rw [hL] at h2; exact ⟨a2, h2, Or.inl rfl⟩
      · rw [hL, lookupA_insertA] at h2
        by_cases haid : aid = auctionID
        · rw [if_pos haid] at h2
          cases h2
          exact ⟨a, haid ▸ hla, Or.inl rfl⟩
        · rw [if_neg haid] at h2
          exact ⟨a2, h2, Or.inl rfl⟩
  | close auctionID =>
      rw [show (runOp c p w (.close auctionID)).2.ledger =
        (closeAuction c w auctionID).2.ledger from rfl] at h2
      rcases closeAuction_ledger c w auctionID with hL | ⟨a, hla, _, hst, hL⟩
      · rw [hL] at h2; exact ⟨a2, h2, Or.inl rfl⟩
      · rw [hL, lookupA_insertA] at h2
        by_cases haid : aid = auctionID
        · rw [if_pos haid] at h2
          cases h2
          exact ⟨a, haid ▸ hla, Or.inr (Or.inl ⟨hst, rfl⟩)⟩
        · rw [if_neg haid] at h2
          exact ⟨a2, h2, Or.inl rfl⟩
  | endA auctionID =>
      rw [show (runOp c p w (.endA auctionID)).2.ledger =
        (endAuction c p w auctionID).2.ledger from rfl] at h2
      rcases endAuction_ledger c p w auctionID with hL |
        ⟨a, wp1, wp2, hla, _, hst, hL⟩
      · rw [hL] at h2; exact ⟨a2, h2, Or.inl rfl⟩
      · rw [hL, lookupA_insertA] at h2
        by_cases haid : aid = auctionID
        · rw [if_pos haid] at h2
          cases h2
          exact ⟨a, haid ▸ hla, Or.inr (Or.inr ⟨hst, rfl⟩)⟩
        · rw [if_neg haid] at h2
          exact ⟨a2, h2, Or.inl rfl⟩

/-! Characterization of the hidden-bid check. -/

/-- Specification-side: an entry of the private-bid map can be processed
by `checkForHigherBid` without an immediate fetch or parse failure:
either it is already revealed, or (local organization) its private data
is present and parses, or (remote organization) its commitment data is
present. -/
def resolvableEntry (c : Ctx) (p : Prims) (w : World)
    (revealedBidders : List (String × FullBid))
    (e : String × BidCommitment) : Bool :=
  match lookupA revealedBidders e.1 with
  | some _ => true
  | none =>
      if e.2.org = c.peerMSPID then
        match lookupPriv w ("_implicit_org_" ++ e.2.org) e.1 with
        | none => false
        | some bytes => (p.parseBid bytes).isSome
      else
        (lookupPriv w ("_implicit_org_" ++ e.2.org) e.1).isSome

/-- Specification-side: the entry is an un-revealed bid of the peer
organization whose stored plaintext price strictly exceeds the auction
price. -/
def higherLocalBid (c : Ctx) (p : Prims) (w : World) (auctionPrice : Int)
    (revealedBidders : List (String × FullBid))
    (e : String × BidCommitment) : Bool :=
  match lookupA revealedBidders e.1 with
  | some _ => false
  | none =>
      if e.2.org = c.peerMSPID then
        match lookupPriv w ("_implicit_org_" ++ e.2.org) e.1 with
        | none => false
        | some bytes =>
            match p.parseBid bytes with
            | none => false
            | some b => decide (b.price > auctionPrice)
      else
        false

theorem checkForHigherBidAux_resolvable (c : Ctx) (p : Prims) (w : World)
    (auctionPrice : Int) (revealedBidders : List (String × FullBid)) :
    ∀ (l : List (String × BidCommitment)) (flag : Bool),
      (∀ e ∈ l, resolvableEntry c p w revealedBidders e = true) →
      checkForHigherBidAux c p w auctionPrice revealedBidders l flag =
        .ok (flag ||
          l.any (fun e => higherLocalBid c p w auctionPrice revealedBidders e))
  | [], flag, _ => by simp [checkForHigherBidAux]
  | (bidKey, privateBid) :: rest, flag, hres => by
      have hresHd := hres (bidKey, privateBid) (List.mem_cons_self _ _)
      have hresTl : ∀ e ∈ rest, resolvableEntry c p w revealedBidders e = true :=
        fun e he => hres e (List.mem_cons_of_mem _ he)
      rw [List.any_cons]
      unfold checkForHigherBidAux
      unfold resolvableEntry at hresHd
      cases hrev : lookupA revealedBidders bidKey with
      | some fb =>
          dsimp only
          rw [checkForHigherBidAux_resolvable c p w auctionPrice
            revealedBidders rest flag hresTl]
          have hfalse : higherLocalBid c p w auctionPrice revealedBidders
              (bidKey, privateBid) = false := by
            unfold higherLocalBid
            rw [hrev]
          rw [hfalse, Bool.false_or]
      | none =>
          rw [hrev] at hresHd
          dsimp only at hresHd ⊢
          by_cases horg : privateBid.org = c.peerMSPID
          · rw [if_pos horg] at hresHd ⊢
            cases hlp : lookupPriv w ("_implicit_org_" ++ privateBid.org)
                bidKey with
            | none =>
                rw [hlp] at hresHd
                exact absurd hresHd (by simp)
            | some bytes =>
                rw [hlp] at hresHd
                dsimp only at hresHd ⊢
                cases hpb : p.parseBid bytes with
                | none =>
                    rw [hpb] at hresHd
                    exact absurd hresHd (by simp)
                | some b =>
                    dsimp only
                    rw [checkForHigherBidAux_resolvable c p w auctionPrice
                      revealedBidders rest _ hresTl]
                    have hval : higherLocalBid c p w auctionPrice
                        revealedBidders (bidKey, privateBid) =
                        decide (b.price > auctionPrice) := by
                      unfold higherLocalBid
                      rw [hrev]
                      dsimp only
                      rw [if_pos horg, hlp]
                      dsimp only
                      rw [hpb]
                    rw [hval, Bool.or_assoc]
          · rw [if_neg horg] at hresHd ⊢
            cases hlp : lookupPriv w ("_implicit_org_" ++ privateBid.org)
                bidKey with
            | none =>
                rw [hlp] at hresHd
                exact absurd hresHd (by simp)
            | some bytes =>
                have hvc : vectorPCommit p w ("_implicit_org_" ++
                    privateBid.org) bidKey = some (p.pcommit bytes) := by
                  unfold vectorPCommit
                  rw [hlp]
                  rfl
                rw [hvc]
                dsimp only
                rw [checkForHigherBidAux_resolvable c p w auctionPrice
                  revealedBidders rest flag hresTl]
                have hfalse : higherLocalBid c p w auctionPrice
                    revealedBidders (bidKey, privateBid) = false := by
                  unfold higherLocalBid
                  rw [hrev]
                  dsimp only
                  rw [if_neg horg]
                rw [hfalse, Bool.false_or]

theorem checkForHigherBid_resolvable (c : Ctx) (p : Prims) (w : World)
    (auctionPrice : Int) (revealedBidders : List (String × FullBid))
    (bidders : List (String × BidCommitment))
    (hres : ∀ e ∈ bidders, resolvableEntry c p w revealedBidders e = true) :
    checkForHigherBid c p w auctionPrice revealedBidders bidders =
      if bidders.any
          (fun e => higherLocalBid c p w auctionPrice revealedBidders e) then
        .error "Cannot close auction, bidder has a higher price"
      else .ok () := by
  unfold checkForHigherBid
  rw [checkForHigherBidAux_resolvable c p w auctionPrice revealedBidders
    bidders false hres, Bool.false_or]
  cases h : bidders.any
      (fun e => higherLocalBid c p w auctionPrice revealedBidders e) <;>
    simp [h]

/-- The success path of EndAuction: with the seller calling on a closed
auction with revealed bids, when the hidden-bid check passes, the
auction is written back ended with the winner-loop result. -/
theorem endAuction_success (c : Ctx) (p : Prims) (w : World)
    (auctionID : String) (a : Auction)
    (hla : lookupA w.ledger auctionID = some a)
    (hsell : a.seller = c.clientID) (hstat : a.status = "closed")
    (hne : a.revealedBids.isEmpty = false)
    (hchk : checkForHigherBid c p w
      (selectWinner (a.winner, a.price) a.revealedBids).2 a.revealedBids
      a.privateBids = .ok ()) :
    (endAuction c p w auctionID).1 = .ok () ∧
    (endAuction c p w auctionID).2.ledger = insertA w.ledger auctionID
      { a with winner := (selectWinner (a.winner, a.price) a.revealedBids).1, price := (selectWinner (a.winner, a.price) a.revealedBids).2, status := "ended" } := by
  unfold endAuction
  rw [(queryAuction_ok_iff w auctionID a).mpr hla]
  dsimp only
  rw [if_neg (not_not_intro hsell), if_neg (not_not_intro hstat),
    if_neg (show ¬ (a.revealedBids.isEmpty = true) by simp [hne])]
  rw [hchk]
  exact ⟨rfl, rfl⟩

/-! Shared concrete sample data for witnesses and counterexamples. -/

/-- A seller identity context (no transient input). -/
def ctxW : Ctx :=
  { clientID := "seller1", clientMSPID := "Org1MSP", peerMSPID := "Org1MSP",
    txID := "tx1", transient := [] }

/-- Trivial concrete primitives: identity hash and commitment, every
range proof valid, empty hex rendering, parsing always fails. -/
def primsW : Prims :=
  { hash := fun bs => bs, pcommit := fun bs => bs, rpOk := fun _ => true,
    hexStr := fun _ => "", parseBid := fun _ => none }

def fbAlice : FullBid :=
  { objectType := "bid", price := 5, org := "Org1MSP", bidder := "alice" }

def fbBob : FullBid :=
  { objectType := "bid", price := 5, org := "Org2MSP", bidder := "bob" }

/-- A closed auction with two revealed bids tied at price 5. -/
def aW : Auction :=
  { objectType := "auction", itemSold := "widget", seller := "seller1",
    orgs := ["Org1MSP"], privateBids := [],
    revealedBids := [("k1", fbAlice), ("k2", fbBob)], winner := "",
    price := 0, status := "closed" }

def wW : World := { ledger := [("A", aW)], priv := [], endors := [] }

/-- Claim C1 (amended): for a closed auction whose stored price is
strictly below the maximum revealed price, EndAuction called by the
seller, when the hidden-bid check passes, selects as winner the bidder
of the first revealed bid (in map iteration order, modelled as insertion
order) attaining the maximum price, sets the price to that maximum and
the status to ended.  When no revealed price exceeds the stored price
the winner field is not touched (see the counterexample). -/
theorem claim1_winner_argmax (c : Ctx) (p : Prims) (w : World)
    (auctionID : String) (a : Auction) (e : String × FullBid)
    (hla : lookupA w.ledger auctionID = some a)
    (hsell : a.seller = c.clientID) (hstat : a.status = "closed")
    (hgt : a.price < listMaxPrice a.price a.revealedBids)
    (hfind : a.revealedBids.find?
      (fun x => x.2.price == listMaxPrice a.price a.revealedBids) = some e)
    (hchk : checkForHigherBid c p w (listMaxPrice a.price a.revealedBids)
      a.revealedBids a.privateBids = .ok ()) :
    (endAuction c p w auctionID).1 = .ok () ∧
    lookupA (endAuction c p w auctionID).2.ledger auctionID =
      some { a with winner := e.2.bidder, price := listMaxPrice a.price a.revealedBids, status := "ended" } := by
  have hsw := selectWinner_find a.revealedBids a.winner a.price e hgt hfind
  have hne : a.revealedBids.isEmpty = false := by
    cases hrb : a.revealedBids with
    | nil =>
        rw [hrb] at hgt
        simp [listMaxPrice] at hgt
    | cons x rest => rfl
  have hchk2 : checkForHigherBid c p w
      (selectWinner (a.winner, a.price) a.revealedBids).2 a.revealedBids
      a.privateBids = .ok () := by
    rw [hsw.1]
    rw [show ((e.2.bidder, e.2.price) : String × Int).2 = e.2.price from rfl,
      hsw.2]
    exact hchk
  have hmain := endAuction_success c p w auctionID a hla hsell hstat hne hchk2
  refine ⟨hmain.1, ?_⟩
  rw [hmain.2, lookupA_insertA, if_pos rfl, hsw.1, hsw.2]

/-- Witness for the amended claim C1 at a concrete tied auction: both
revealed bids have price 5 and the first one in iteration order, by
bidder alice, wins. -/
theorem claim1_winner_argmax_witness :
    (endAuction ctxW primsW wW "A").1 = .ok () ∧
    lookupA (endAuction ctxW primsW wW "A").2.ledger "A" =
      some { aW with winner := "alice", price := 5, status := "ended" } :=
  claim1_winner_argmax ctxW primsW wW "A" aW ("k1", fbAlice) rfl rfl rfl
    (by decide) rfl rfl

def fbZero : FullBid :=
  { objectType := "bid", price := 0, org := "Org1MSP", bidder := "alice" }

def aZ : Auction :=
  { objectType := "auction", itemSold := "widget", seller := "seller1",
    orgs := ["Org1MSP"], privateBids := [],
    revealedBids := [("k1", fbZero)], winner := "", price := 0,
    status := "closed" }

def wZ : World := { ledger := [("A", aZ)], priv := [], endors := [] }

/-- Claim C1 counterexample: the only revealed bid of the closed auction
has bidder alice and price 0, which is the maximum revealed price; the
seller ends the auction successfully, yet the recorded winner is the
empty string and not alice, because the winner loop starts at the stored
price 0 and only a strictly greater revealed price updates the winner. -/
theorem claim1_counterexample :
    aZ.status = "closed" ∧ aZ.revealedBids = [("k1", fbZero)] ∧
    fbZero.bidder = "alice" ∧ fbZero.price = 0 ∧
    (endAuction ctxW primsW wZ "A").1 = .ok () ∧
    (lookupA (endAuction ctxW primsW wZ "A").2.ledger "A").map
      Auction.winner = some "" ∧
    (some "" : Option String) ≠ some "alice" :=
  ⟨rfl, rfl, rfl, rfl, rfl, rfl, by decide⟩

/-- Claim C10 (amended): if every revealed bid of a reachable closed
auction (stored winner empty, stored price 0) has price zero or
negative, and the hidden-bid check passes, EndAuction invoked by the
seller succeeds and sets status to ended with the winner still the empty
string and the price still 0. -/
theorem claim10_all_nonpositive_prices (c : Ctx) (p : Prims) (w : World)
    (auctionID : String) (a : Auction)
    (hla : lookupA w.ledger auctionID = some a)
    (hsell : a.seller = c.clientID) (hstat : a.status = "closed")
    (hne : a.revealedBids.isEmpty = false)
    (hwin : a.winner = "") (hprice : a.price = 0)
    (hall : ∀ e ∈ a.revealedBids, e.2.price ≤ 0)
    (hchk : checkForHigherBid c p w 0 a.revealedBids a.privateBids = .ok ()) :
    (endAuction c p w auctionID).1 = .ok () ∧
    lookupA (endAuction c p w auctionID).2.ledger auctionID =
      some { a with winner := "", price := 0, status := "ended" } := by
  have hstay : selectWinner (a.winner, a.price) a.revealedBids =
      (a.winner, a.price) :=
    selectWinner_stay _ _ _ (fun e he => by rw [hprice]; exact hall e he)
  have hchk2 : checkForHigherBid c p w
      (selectWinner (a.winner, a.price) a.revealedBids).2 a.revealedBids
      a.privateBids = .ok () := by
    rw [hstay]
    rw [show ((a.winner, a.price) : String × Int).2 = a.price from rfl, hprice]
    exact hchk
  have hmain := endAuction_success c p w auctionID a hla hsell hstat hne hchk2
  refine ⟨hmain.1, ?_⟩
  rw [hmain.2, lookupA_insertA, if_pos rfl, hstay, hwin, hprice]

/-- Witness for the amended claim C10: a closed auction whose only
revealed bid has price 0 ends with winner still empty and price 0. -/
theorem claim10_all_nonpositive_prices_witness :
    (endAuction ctxW primsW wZ "A").1 = .ok () ∧
    lookupA (endAuction ctxW primsW wZ "A").2.ledger "A" =
      some { aZ with winner := "", price := 0, status := "ended" } :=
  claim10_all_nonpositive_prices ctxW primsW wZ "A" aZ rfl rfl rfl rfl rfl rfl
    (by decide) rfl

def fbFive : FullBid :=
  { objectType := "bid", price := 5, org := "Org1MSP", bidder := "bob" }

def prims10 : Prims :=
  { hash := fun bs => bs, pcommit := fun bs => bs, rpOk := fun _ => true,
    hexStr := fun _ => "", parseBid := fun _ => some fbFive }

def a10 : Auction :=
  { objectType := "auction", itemSold := "widget", seller := "seller1",
    orgs := ["Org1MSP"],
    privateBids := [("k2", { org := "Org1MSP", commitment := "c" })],
    revealedBids := [("k1", fbZero)], winner := "", price := 0,
    status := "closed" }

def w10 : World :=
  { ledger := [("A", a10)],
    priv := [("_implicit_org_Org1MSP", [("k2", [5])])], endors := [] }

/-- Claim C10 counterexample: every revealed bid of the closed auction
has price 0, yet EndAuction invoked by the seller fails (an un-revealed
local bid with plaintext price 5 trips the hidden-bid check) and the
status stays closed, so the claim as stated does not hold
unconditionally. -/
theorem claim10_counterexample :
    (∀ e ∈ a10.revealedBids, e.2.price ≤ 0) ∧
    a10.status = "closed" ∧ a10.seller = ctxW.clientID ∧
    isOkE (endAuction ctxW prims10 w10 "A").1 = false ∧
    (lookupA (endAuction ctxW prims10 w10 "A").2.ledger "A").map
      Auction.status = some "closed" :=
  ⟨by decide, rfl, rfl, rfl, rfl⟩

/-- Claim C3 (amended): when an un-revealed bid of the locally executing
organization has a stored plaintext price strictly greater than the
running maximum (the stored auction price raised by any strictly greater
revealed price, so `max` of the stored price and the revealed prices),
and every other un-revealed bid is resolvable, EndAuction by the seller
fails with the higher-bid error and the state is unchanged.  Comparing
against the maximum revealed price alone is wrong when all revealed
prices are negative (see the counterexample). -/
theorem claim3_higher_hidden_bid_blocks_end (c : Ctx) (p : Prims) (w : World)
    (auctionID : String) (a : Auction)
    (hla : lookupA w.ledger auctionID = some a)
    (hsell : a.seller = c.clientID) (hstat : a.status = "closed")
    (hne : a.revealedBids.isEmpty = false)
    (hres : ∀ e ∈ a.privateBids, resolvableEntry c p w a.revealedBids e = true)
    (eb : String × BidCommitment) (heb : eb ∈ a.privateBids)
    (hunrev : lookupA a.revealedBids eb.1 = none)
    (hlocal : eb.2.org = c.peerMSPID)
    (bytes : List Nat)
    (hbytes : lookupPriv w ("_implicit_org_" ++ eb.2.org) eb.1 = some bytes)
    (b : FullBid) (hparse : p.parseBid bytes = some b)
    (hhigh : listMaxPrice a.price a.revealedBids < b.price) :
    (endAuction c p w auctionID).1 =
      .error ("Cannot end auction: " ++
        "Cannot close auction, bidder has a higher price") ∧
    (endAuction c p w auctionID).2 = w := by
  have hsnd : (selectWinner (a.winner, a.price) a.revealedBids).2 =
      listMaxPrice a.price a.revealedBids := selectWinner_snd _ _ _
  have hH : higherLocalBid c p w
      (selectWinner (a.winner, a.price) a.revealedBids).2 a.revealedBids eb =
      true := by
    unfold higherLocalBid
    rw [hunrev]
    dsimp only
    rw [if_pos hlocal, hbytes]
    dsimp only
    rw [hparse]
    dsimp only
    rw [hsnd]
    exact decide_eq_true hhigh
  have hany : a.privateBids.any (fun e => higherLocalBid c p w
      (selectWinner (a.winner, a.price) a.revealedBids).2 a.revealedBids e) =
      true :=
    List.any_eq_true.mpr ⟨eb, heb, hH⟩
  have hchk : checkForHigherBid c p w
      (selectWinner (a.winner, a.price) a.revealedBids).2 a.revealedBids
      a.privateBids =
      .error "Cannot close auction, bidder has a higher price" := by
    rw [checkForHigherBid_resolvable c p w _ a.revealedBids a.privateBids hres,
      if_pos hany]
  unfold endAuction
  rw [(queryAuction_ok_iff w auctionID a).mpr hla]
  dsimp only
  rw [if_neg (not_not_intro hsell), if_neg (not_not_intro hstat),
    if_neg (show ¬ (a.revealedBids.isEmpty = true) by simp [hne])]
  rw [hchk]
  exact ⟨rfl, rfl⟩

def fbTen : FullBid :=
  { objectType := "bid", price := 10, org := "Org1MSP", bidder := "bob" }

def fbTwo : FullBid :=
  { objectType := "bid", price := 2, org := "Org1MSP", bidder := "carol" }

def prims3 : Prims :=
  { hash := fun bs => bs, pcommit := fun bs => bs, rpOk := fun _ => true,
    hexStr := fun _ => "", parseBid := fun _ => some fbTen }

def a3 : Auction :=
  { objectType := "auction", itemSold := "widget", seller := "seller1",
    orgs := ["Org1MSP"],
    privateBids := [("k2", { org := "Org1MSP", commitment := "c" })],
    revealedBids := [("k1", fbTwo)], winner := "", price := 0,
    status := "closed" }

def w3 : World :=
  { ledger := [("A", a3)],
    priv := [("_implicit_org_Org1MSP", [("k2", [9])])], endors := [] }

/-- Witness for the amended claim C3: the revealed maximum is 2, a
hidden local bid has plaintext price 10, so ending the auction fails and
changes nothing. -/
theorem claim3_higher_hidden_bid_blocks_end_witness :
    (endAuction ctxW prims3 w3 "A").1 =
      .error ("Cannot end auction: " ++
        "Cannot close auction, bidder has a higher price") ∧
    (endAuction ctxW prims3 w3 "A").2 = w3 :=
  claim3_higher_hidden_bid_blocks_end ctxW prims3 w3 "A" a3 rfl rfl rfl rfl
    (by decide) ("k2", { org := "Org1MSP", commitment := "c" }) (by decide)
    rfl rfl [9] rfl fbTen rfl (by decide)

def fbNeg5 : FullBid :=
  { objectType := "bid", price := -5, org := "Org1MSP", bidder := "carol" }

def fbNeg1 : FullBid :=
  { objectType := "bid", price := -1, org := "Org1MSP", bidder := "bob" }

def prims3x : Prims :=
  { hash := fun bs => bs, pcommit := fun bs => bs, rpOk := fun _ => true,
    hexStr := fun _ => "", parseBid := fun _ => some fbNeg1 }

def a3x : Auction :=
  { objectType := "auction", itemSold := "widget", seller := "seller1",
    orgs := ["Org1MSP"],
    privateBids := [("k2", { org := "Org1MSP", commitment := "c" })],
    revealedBids := [("k1", fbNeg5)], winner := "", price := 0,
    status := "closed" }

def w3x : World :=
  { ledger := [("A", a3x)],
    priv := [("_implicit_org_Org1MSP", [("k2", [1])])], endors := [] }

/-- Claim C3 counterexample: the un-revealed local bid has plaintext
price -1, strictly greater than the maximum revealed price -5, yet
EndAuction succeeds and the auction ends, because the code compares the
hidden price with the running maximum, which starts at the stored price
0, and -1 is not greater than 0. -/
theorem claim3_counterexample :
    a3x.status = "closed" ∧ a3x.revealedBids = [("k1", fbNeg5)] ∧
    fbNeg5.price = -5 ∧ lookupA a3x.revealedBids "k2" = none ∧
    prims3x.parseBid [1] = some fbNeg1 ∧ fbNeg1.price = -1 ∧
    ((-5 : Int) < -1) ∧
    (endAuction ctxW prims3x w3x "A").1 = .ok () ∧
    (lookupA (endAuction ctxW prims3x w3x "A").2.ledger "A").map
      Auction.status = some "ended" :=
  ⟨rfl, rfl, rfl, rfl, rfl, rfl, by decide, rfl, rfl⟩

/-! Claim C2: the range-proof check of RevealBid. -/

/-- Seller context with a transient bid payload. -/
def ctx9 : Ctx :=
  { clientID := "seller1", clientMSPID := "Org1MSP", peerMSPID := "Org1MSP",
    txID := "tx1", transient := [("bid", [7])] }

def fb2 : FullBid :=
  { objectType := "bid", price := 3, org := "Org1MSP", bidder := "seller1" }

/-- Primitives under which every range proof is invalid. -/
def prims2 : Prims :=
  { hash := fun bs => bs, pcommit := fun bs => bs, rpOk := fun _ => false,
    hexStr := fun _ => "", parseBid := fun _ => some fb2 }

def a2 : Auction :=
  { objectType := "auction", itemSold := "widget", seller := "seller1",
    orgs := ["Org1MSP"], privateBids := [], revealedBids := [], winner := "",
    price := 0, status := "closed" }

def w2 : World :=
  { ledger := [("A", a2)],
    priv := [("_implicit_org_Org1MSP", [(compositeKey "A" "tx1", [7])])],
    endors := [] }

/-- Claim C2 (code bug): the commitment [7] fails range-proof
verification (rpOk is constantly false), the other checks pass, and
RevealBid nevertheless succeeds and records the revealed bid: the source
only logs the range-proof failure (a stray testing call at auction.go
line 306) instead of returning an error, against the stated intent that
verification failure aborts the reveal unconditionally. -/
theorem claim2_range_proof_failure_ignored :
    prims2.rpOk (prims2.pcommit [7]) = false ∧
    (revealBid ctx9 prims2 w2 "A" "tx1").1 = .ok () ∧
    (lookupA (revealBid ctx9 prims2 w2 "A" "tx1").2.ledger "A").map
      Auction.revealedBids = some [(compositeKey "A" "tx1", fb2)] :=
  ⟨rfl, rfl, rfl⟩

/-! Claim C4: status monotonicity. -/

/-- Claim C4 (amended): for every operation other than CreateAuction, an
auction found in the ledger after the operation was already there
before, with the same status or one advanced along open to closed
(CloseAuction) or closed to ended (EndAuction).  CreateAuction is
excluded: it does not check for an existing record and can overwrite an
ended or closed auction with a fresh open one (see the
counterexample). -/
theorem claim4_status_monotone_non_create (c : Ctx) (p : Prims) (w : World)
    (o : Op) (hnc : ∀ id item, o ≠ Op.create id item) (aid : String)
    (a2 : Auction) (h2 : lookupA (runOp c p w o).2.ledger aid = some a2) :
    ∃ a1, lookupA w.ledger aid = some a1 ∧
      (a2.status = a1.status ∨ (a1.status = "open" ∧ a2.status = "closed") ∨
       (a1.status = "closed" ∧ a2.status = "ended")) :=
  runOp_status_monotone c p w o hnc aid a2 h2

def aOpen : Auction :=
  { objectType := "auction", itemSold := "widget", seller := "seller1",
    orgs := ["Org1MSP"], privateBids := [], revealedBids := [], winner := "",
    price := 0, status := "open" }

def wOpen : World := { ledger := [("A", aOpen)], priv := [], endors := [] }

/-- Witness for the amended claim C4: closing a concrete open auction
yields the open-to-closed transition. -/
theorem claim4_status_monotone_non_create_witness :
    ∃ a1, lookupA wOpen.ledger "A" = some a1 ∧
      (({ aOpen with status := "closed" } : Auction).status = a1.status ∨
       (a1.status = "open" ∧
        ({ aOpen with status := "closed" } : Auction).status = "closed") ∨
       (a1.status = "closed" ∧
        ({ aOpen with status := "closed" } : Auction).status = "ended")) :=
  claim4_status_monotone_non_create ctxW primsW wOpen (Op.close "A")
    (fun _ _ h => Op.noConfusion h) "A" { aOpen with status := "closed" }
    rfl

def cw1 : World := (runOp ctxW primsW initWorld (Op.create "A" "widget")).2
def cw2 : World := (runOp ctxW primsW cw1 (Op.close "A")).2
def cw3 : World := (runOp ctxW primsW cw2 (Op.create "A" "widget")).2

/-- Claim C4 counterexample: along the reachable trace create, close,
create on the same auction identifier, the status of auction A regresses
from closed back to open, because CreateAuction overwrites the existing
record unconditionally. -/
theorem claim4_counterexample :
    Reached cw3 ∧
    (lookupA cw2.ledger "A").map Auction.status = some "closed" ∧
    (lookupA cw3.ledger "A").map Auction.status = some "open" :=
  ⟨Reached.step ctxW primsW (Op.create "A" "widget") cw2
      (Reached.step ctxW primsW (Op.close "A") cw1
        (Reached.step ctxW primsW (Op.create "A" "widget") initWorld
          Reached.init)),
    rfl, rfl⟩

/-! Claim C5: operations on a non-open auction. -/

/-- Claim C5 (amended): when the stored auction status is not open,
SubmitBid fails with an error and leaves the state exactly as it was;
the Bid operation, however, performs no status check at all: its result
and its private-store effect are the same for any contents of the public
ledger. -/
theorem claim5_submit_rejects_non_open (c : Ctx) (p : Prims) (w : World)
    (auctionID txID : String) (a : Auction)
    (l2 : List (String × Auction))
    (hla : lookupA w.ledger auctionID = some a) (hst : a.status ≠ "open") :
    (submitBid c p w auctionID txID).1 =
      .error "cannot join closed or ended auction" ∧
    (submitBid c p w auctionID txID).2 = w ∧
    (bid c { w with ledger := l2 } auctionID).1 = (bid c w auctionID).1 ∧
    (bid c { w with ledger := l2 } auctionID).2.priv =
      (bid c w auctionID).2.priv := by
  have hsub : submitBid c p w auctionID txID =
      (.error "cannot join closed or ended auction", w) := by
    unfold submitBid
    rw [(queryAuction_ok_iff w auctionID a).mpr hla]
    dsimp only
    rw [if_pos hst]
  refine ⟨by rw [hsub], by rw [hsub], ?_, ?_⟩ <;>
    · unfold bid
      cases lookupA c.transient "bid" with
      | none => rfl
      | some bytes =>
          dsimp only
          cases hv : verifyClientOrgMatchesPeerOrg c <;> rfl

def ctx5 : Ctx :=
  { clientID := "bidder1", clientMSPID := "Org1MSP", peerMSPID := "Org1MSP",
    txID := "tx9", transient := [("bid", [8])] }

/-- Claim C5 counterexample: auction A is closed, yet Bid succeeds and
writes the private bid into the bidder organization collection, because
Bid never reads the auction record. -/
theorem claim5_counterexample :
    (lookupA wW.ledger "A").map Auction.status = some "closed" ∧
    (bid ctx5 wW "A").1 = .ok "tx9" ∧
    lookupPriv (bid ctx5 wW "A").2 "_implicit_org_Org1MSP"
      (compositeKey "A" "tx9") = some [8] :=
  ⟨rfl, rfl, rfl⟩

/-- Witness for the amended claim C5 at the concrete closed auction A. -/
theorem claim5_submit_rejects_non_open_witness :
    (submitBid ctxW primsW wW "A" "tx1").1 =
      .error "cannot join closed or ended auction" ∧
    (submitBid ctxW primsW wW "A" "tx1").2 = wW ∧
    (bid ctxW { wW with ledger := [] } "A").1 = (bid ctxW wW "A").1 ∧
    (bid ctxW { wW with ledger := [] } "A").2.priv =
      (bid ctxW wW "A").2.priv :=
  claim5_submit_rejects_non_open ctxW primsW wW "A" "tx1" aW [] rfl
    (by decide)

/-! Claim C6: access control. -/

/-- Claim C6: for every auction stored in the ledger, a caller that is
not the recorded seller is rejected by CloseAuction and EndAuction with
the seller-only error and nothing is modified; and, independently,
QueryBid returns a bid only to the identity recorded as the bid's
declared bidder, so it fails for every other caller (QueryBid performs
no writes at all in the source). -/
theorem claim6_access_control (c : Ctx) (p : Prims) (w : World)
    (auctionID txID : String) :
    (∀ a : Auction, lookupA w.ledger auctionID = some a →
      a.seller ≠ c.clientID →
      (closeAuction c w auctionID).1 =
        .error "auction can only be closed by seller" ∧
      (closeAuction c w auctionID).2 = w ∧
      (endAuction c p w auctionID).1 =
        .error "auction can only be ended by seller" ∧
      (endAuction c p w auctionID).2 = w) ∧
    (∀ b : FullBid, queryBid c p w auctionID txID = .ok b →
      b.bidder = c.clientID) := by
  constructor
  · intro a hla hs
    have hclose : closeAuction c w auctionID =
        (.error "auction can only be closed by seller", w) := by
      unfold closeAuction
      rw [(queryAuction_ok_iff w auctionID a).mpr hla]
      dsimp only
      rw [if_pos hs]
    have hend : endAuction c p w auctionID =
        (.error "auction can only be ended by seller", w) := by
      unfold endAuction
      rw [(queryAuction_ok_iff w auctionID a).mpr hla]
      dsimp only
      rw [if_pos hs]
    exact ⟨by rw [hclose], by rw [hclose], by rw [hend], by rw [hend]⟩
  · intro b hq
    unfold queryBid at hq
    split at hq
    · dsimp only at hq
      split at hq
      · exact Except.noConfusion hq
      · split at hq
        · exact Except.noConfusion hq
        · split at hq
          · exact Except.noConfusion hq
          · rename_i hbid
            cases hq
            exact not_not.mp hbid
    · exact Except.noConfusion hq

def ctxBob : Ctx :=
  { clientID := "bob", clientMSPID := "Org1MSP", peerMSPID := "Org1MSP",
    txID := "tx1", transient := [] }

def fbBobOwn : FullBid :=
  { objectType := "bid", price := 7, org := "Org1MSP", bidder := "bob" }

def prims6 : Prims :=
  { hash := fun bs => bs, pcommit := fun bs => bs, rpOk := fun _ => true,
    hexStr := fun _ => "", parseBid := fun _ => some fbBobOwn }

def w6 : World :=
  { ledger := [("A", aW)],
    priv := [("_implicit_org_Org1MSP", [(compositeKey "A" "tx1", [3])])],
    endors := [] }

/-- Witness for claim C6: bob, who is not the seller of auction A, is
denied Close and End (whether or not any bid of his exists), and the
one bid QueryBid does return to him is his own. -/
theorem claim6_access_control_witness :
    ((closeAuction ctxBob w6 "A").1 =
      .error "auction can only be closed by seller" ∧
     (closeAuction ctxBob w6 "A").2 = w6 ∧
     (endAuction ctxBob prims6 w6 "A").1 =
      .error "auction can only be ended by seller" ∧
     (endAuction ctxBob prims6 w6 "A").2 = w6) ∧
    fbBobOwn.bidder = ctxBob.clientID :=
  ⟨(claim6_access_control ctxBob prims6 w6 "A" "tx1").1 aW rfl (by decide),
   (claim6_access_control ctxBob prims6 w6 "A" "tx1").2 fbBobOwn rfl⟩

/-! Claim C7: no partial writes. -/

/-- Claim C7: every lifecycle operation that returns an error leaves the
whole persistent state (public ledger, private collections, endorsement
state) exactly as it was before the call. -/
theorem claim7_no_partial_write (c : Ctx) (p : Prims) (w : World) (o : Op)
    (e : String) (h : (runOp c p w o).1 = .error e) : (runOp c p w o).2 = w :=
  runOp_frame c p w o e h

/-- Witness for claim C7: closing a nonexistent auction fails and
changes nothing. -/
theorem claim7_no_partial_write_witness :
    (runOp ctxW primsW initWorld (Op.close "A")).1 =
      .error "failed to get auction from public state" ∧
    (runOp ctxW primsW initWorld (Op.close "A")).2 = initWorld :=
  ⟨rfl, claim7_no_partial_write ctxW primsW initWorld (Op.close "A")
    "failed to get auction from public state" rfl⟩

/-! Claim C8: treatment of remote un-revealed bids. -/

/-- Claim C8 (amended): for un-revealed bids of remote organizations the
hidden-bid check only fetches the public commitment and fails when it is
absent; it does not compare the remote price with the running maximum
and it performs no range-proof re-verification: when every un-revealed
bid is remote with its commitment data present, the check succeeds for
every choice of primitives (in particular with every range proof
invalid) and every auction price. -/
theorem claim8_remote_bids_only_fetched (c : Ctx) (p : Prims) (w : World)
    (auctionPrice : Int) (revealedBidders : List (String × FullBid))
    (bidders : List (String × BidCommitment))
    (hrem : ∀ e ∈ bidders, lookupA revealedBidders e.1 = none →
      e.2.org ≠ c.peerMSPID ∧
      (lookupPriv w ("_implicit_org_" ++ e.2.org) e.1).isSome = true) :
    checkForHigherBid c p w auctionPrice revealedBidders bidders = .ok () := by
  have hres : ∀ e ∈ bidders, resolvableEntry c p w revealedBidders e = true := by
    intro e he
    unfold resolvableEntry
    cases hrev : lookupA revealedBidders e.1 with
    | some _ => rfl
    | none =>
        dsimp only
        rcases hrem e he hrev with ⟨horg, hsome⟩
        rw [if_neg horg]
        exact hsome
  rw [checkForHigherBid_resolvable c p w auctionPrice revealedBidders bidders
    hres]
  have hany : bidders.any
      (fun e => higherLocalBid c p w auctionPrice revealedBidders e) =
      false := by
    rw [Bool.eq_false_iff]
    intro hcontra
    rcases List.any_eq_true.mp hcontra with ⟨e, he, hH⟩
    unfold higherLocalBid at hH
    cases hrev : lookupA revealedBidders e.1 with
    | some fb => rw [hrev] at hH; exact Bool.noConfusion hH
    | none =>
        rw [hrev] at hH
        dsimp only at hH
        rw [if_neg (hrem e he hrev).1] at hH
        exact Bool.noConfusion hH
  rw [if_neg (show ¬ (bidders.any (fun e => higherLocalBid c p w auctionPrice
    revealedBidders e) = true) by simp [hany])]

def prims8 : Prims :=
  { hash := fun bs => bs, pcommit := fun bs => bs, rpOk := fun _ => false,
    hexStr := fun _ => "", parseBid := fun _ => none }

def w8 : World :=
  { ledger := [],
    priv := [("_implicit_org_Org2MSP", [("k1", [9])])], endors := [] }

/-- Claim C8 counterexample: with primitives under which every range
proof is invalid, the hidden-bid check over one remote un-revealed bid
whose commitment is present still succeeds, so the check cannot be
re-verifying the range proof of the remote commitment. -/
theorem claim8_counterexample :
    prims8.rpOk (prims8.pcommit [9]) = false ∧
    checkForHigherBid ctxW prims8 w8 0 []
      [("k1", { org := "Org2MSP", commitment := "c" })] = .ok () :=
  ⟨rfl, rfl⟩

/-- Witness for the amended claim C8 at a concrete remote bid and a huge
auction price. -/
theorem claim8_remote_bids_only_fetched_witness :
    checkForHigherBid ctxW prims8 w8 1000000 []
      [("k1", { org := "Org2MSP", commitment := "c" })] = .ok () :=
  claim8_remote_bids_only_fetched ctxW prims8 w8 1000000 []
    [("k1", { org := "Org2MSP", commitment := "c" })] (by decide)

/-! Claim C9: revealed bids name the seller as bidder. -/

/-- Claim C9: in every reachable state, every revealed bid stored in
any auction names the auction seller as its bidder, because RevealBid
requires the caller to be the seller and the revealed payload to name
the caller as bidder. -/
theorem claim9_revealed_bidder_is_seller (w : World) (hw : Reached w)
    (auctionID : String) (a : Auction)
    (hla : lookupA w.ledger auctionID = some a)
    (e : String × FullBid) (he : e ∈ a.revealedBids) :
    e.2.bidder = a.seller :=
  reached_invL w hw auctionID a hla e he

def fb9 : FullBid :=
  { objectType := "bid", price := 4, org := "Org1MSP", bidder := "seller1" }

def prims9 : Prims :=
  { hash := fun bs => bs, pcommit := fun bs => bs, rpOk := fun _ => true,
    hexStr := fun _ => "", parseBid := fun _ => some fb9 }

def rw1 : World := (runOp ctx9 prims9 initWorld (Op.create "A" "widget")).2
def rw2 : World := (runOp ctx9 prims9 rw1 (Op.bidOp "A")).2
def rw3 : World := (runOp ctx9 prims9 rw2 (Op.close "A")).2
def rw4 : World := (runOp ctx9 prims9 rw3 (Op.reveal "A" "tx1")).2

def a9 : Auction :=
  { objectType := "auction", itemSold := "widget", seller := "seller1",
    orgs := ["Org1MSP"], privateBids := [],
    revealedBids := [(compositeKey "A" "tx1", fb9)], winner := "",
    price := 0, status := "closed" }

/-- Witness for claim C9 along the concrete reachable trace create, bid,
close, reveal: the revealed bid of auction A names the seller. -/
theorem claim9_revealed_bidder_is_seller_witness :
    ((compositeKey "A" "tx1", fb9) : String × FullBid).2.bidder = a9.seller :=
  claim9_revealed_bidder_is_seller rw4
    (Reached.step ctx9 prims9 (Op.reveal "A" "tx1") rw3
      (Reached.step ctx9 prims9 (Op.close "A") rw2
        (Reached.step ctx9 prims9 (Op.bidOp "A") rw1
          (Reached.step ctx9 prims9 (Op.create "A" "widget") initWorld
            Reached.init))))
    "A" a9 rfl (compositeKey "A" "tx1", fb9) (by decide)

end ReverseAuction
